import Mathlib

/-!
Verification of the SOAP/ONVIF client core (package `onvif` and `onvif/soap`):
the envelope codec, the WS-Security username-token builder, the fault
classifier and the authentication-negotiating client state machine.

Shallow embedding notes:
* Go maps (`soap.Namespaces`) are embedded as association lists
  `List (String × String)`; a list fixes one iteration order, standing for
  the (unspecified) Go map iteration order.
* Go `[]byte` is embedded as `List Nat` with every entry `< 256`.
* `encoding/xml` is embedded at the token level: an element stream of
  start/end/character-data tokens plus an opaque `raw` token standing for
  verbatim inner-XML bytes.  Qualified names are kept as their raw text and
  split at the first colon where the Go parser would split them.
-/

set_option maxRecDepth 10000

/-- SOAP envelope namespace URI (`soap.NamespaceEnvelope`). -/
def NamespaceEnvelope : String := "http://www.w3.org/2003/05/soap-envelope"

/-- WS-Security secext namespace URI (`soap.NamspaceWSSSecExt`, sic). -/
def NamspaceWSSSecExt : String := "http://docs.oasis-open.org/wss/2004/01/oasis-200401-wss-wssecurity-secext-1.0.xsd"

/-- WS-Security utility namespace URI (`soap.NamespaceWSSUtility`). -/
def NamespaceWSSUtility : String := "http://docs.oasis-open.org/wss/2004/01/oasis-200401-wss-wssecurity-utility-1.0.xsd"

/-- ONVIF error namespace URI (`soap.NamespaceONVIFError`). -/
def NamespaceONVIFError : String := "http://www.onvif.org/ver10/error"

/-- `soap.Namespaces`: a mapping of XML namespace prefixes to URIs,
embedded as an association list. -/
def Namespaces : Type := List (String × String)

instance : DecidableEq Namespaces := by
  unfold Namespaces
  infer_instance

/-- `soap.Fault`: a SOAP message error.  `Detail` is the raw inner XML of the
fault element, as bytes. -/
structure Fault where
  Namespaces : List (String × String)
  Code : String
  SubCode : String
  Reason : String
  Node : String
  Role : String
  Detail : List Nat
deriving DecidableEq, Repr

/-- One step of the prefix-resolution loop in `Fault.IsUnauthorizedError`:
the accumulator is the pair (soapPfx, errPfx), each already carrying the
trailing colon, and each assignment in the Go loop overwrites the component. -/
def pfxStep (acc : String × String) (p : String × String) : String × String :=
  if p.2 == NamespaceEnvelope then (p.1 ++ ":", acc.2)
  else if p.2 == NamespaceONVIFError then (acc.1, p.1 ++ ":")
  else acc

/-- `Fault.IsUnauthorizedError` from `src/soap/soap.go` lines 192-203:
resolve which prefix maps to the envelope namespace and which to the ONVIF
error namespace (iterating the namespace table; a later entry overwrites an
earlier one), then compare Code and SubCode against the prefixed names. -/
def Fault.IsUnauthorizedError (f : Fault) : Bool :=
  let pfx := f.Namespaces.foldl pfxStep ("", "")
  f.Code == pfx.1 ++ "Sender" && f.SubCode == pfx.2 ++ "NotAuthorized"

/-- Specification-side prefix resolution: the prefix of the last table entry
whose URI equals `uri`, with a trailing colon, or `""` when no entry
matches.  (The last entry wins because each matching loop iteration
overwrites the variable.) -/
def resolvedPfx (ns : List (String × String)) (uri : String) : String :=
  match ns.reverse.find? (fun p => p.2 == uri) with
  | some p => p.1 ++ ":"
  | none => ""

/-- An XML token, mirroring `encoding/xml`'s token stream at the level the
SOAP codec consumes it: start elements carry their raw qualified name and
their attributes as raw-name/value pairs; `raw` stands for verbatim
inner-XML bytes (the content of `,innerxml` fields, which the codec treats
as opaque). -/
inductive Tok where
  | startEl (name : String) (attrs : List (String × String))
  | endEl (name : String)
  | text (s : String)
  | raw (bytes : List Nat)
deriving DecidableEq, Repr

/-- Split a raw qualified name at the first colon, as Go's XML parser does:
`a:b:c` becomes space `a`, local `b:c`; a name without a colon has an empty
space. Core recursion over the character list. -/
def splitNameCore : List Char → Option (List Char × List Char)
  | [] => none
  | c :: rest =>
      if c = ':' then some ([], rest)
      else (splitNameCore rest).map (fun p => (c :: p.1, p.2))

/-- Split a raw qualified name into (space, local). -/
def splitName (s : String) : String × String :=
  match splitNameCore s.data with
  | some (sp, loc) => (String.mk sp, String.mk loc)
  | none => ("", s)

/-- Standard UTF-8 encoding of one character, as bytes. -/
def utf8Bytes (c : Char) : List Nat :=
  let n := c.toNat
  if n < 128 then [n]
  else if n < 2048 then [192 + n / 64, 128 + n % 64]
  else if n < 65536 then [224 + n / 4096, 128 + n / 64 % 64, 128 + n % 64]
  else [240 + n / 262144, 128 + n / 4096 % 64, 128 + n / 64 % 64, 128 + n % 64]

/-- UTF-8 bytes of a string, as `List Nat` (Go strings are UTF-8 byte
sequences; `[]byte(s)` yields exactly these bytes). -/
def strBytes (s : String) : List Nat :=
  s.data.flatMap utf8Bytes

/-- Serialization of attributes back to bytes (for `,innerxml` capture).
Quoting/escaping of attribute values is not modelled. -/
def serializeAttrs : List (String × String) → List Nat
  | [] => []
  | (n, v) :: t => strBytes (" " ++ n ++ "=\"" ++ v ++ "\"") ++ serializeAttrs t

/-- Serialization of one token back to bytes (for `,innerxml` capture). -/
def serializeTok : Tok → List Nat
  | .startEl n attrs => strBytes ("<" ++ n) ++ serializeAttrs attrs ++ strBytes ">"
  | .endEl n => strBytes ("</" ++ n ++ ">")
  | .text s => strBytes s
  | .raw b => b

/-- Serialization of a token list back to bytes: what a `,innerxml` field
captures for the region spanned by these tokens. -/
def serializeToks (l : List Tok) : List Nat :=
  (l.map serializeTok).flatten

/-- Go-map insertion on the association-list embedding: replace the value of
an existing key, otherwise append the new binding. -/
def nsInsert : List (String × String) → String → String → List (String × String)
  | [], k, v => [(k, v)]
  | p :: t, k, v => if p.1 == k then (k, v) :: t else p :: nsInsert t k v

/-- Consume tokens up to (and including) the end element that closes the
element whose content starts the list, `d` being the current nesting depth.
Returns the inside tokens and the remainder after the closing end element;
`none` when the stream ends first (the underlying decoder would report an
EOF/syntax error). This is how `xml.Decoder.DecodeElement` and `Skip`
delimit a subtree. -/
def takeElement : Nat → List Tok → Option (List Tok × List Tok)
  | _, [] => none
  | d, .startEl n a :: rest =>
      (takeElement (d + 1) rest).map (fun p => (.startEl n a :: p.1, p.2))
  | 0, .endEl _ :: rest => some ([], rest)
  | d + 1, .endEl n :: rest =>
      (takeElement d rest).map (fun p => (.endEl n :: p.1, p.2))
  | d, t :: rest => (takeElement d rest).map (fun p => (t :: p.1, p.2))

/-- When `takeElement` succeeds, the remainder is strictly shorter than the
input (at least the closing end element is consumed). Stated as a `def`
producing the proof so it can justify the termination of the functions
below. -/
def takeElement_shrink :
    ∀ (d : Nat) (toks inside rest : List Tok),
      takeElement d toks = some (inside, rest) → rest.length < toks.length := by
  intro d toks
  induction toks generalizing d with
  | nil => intro inside rest h; simp [takeElement] at h
  | cons t ts ih =>
      intro inside rest h
      cases t with
      | startEl n a =>
          cases hin : takeElement (d + 1) ts with
          | none => simp [takeElement, hin] at h
          | some p =>
              obtain ⟨ins2, r2⟩ := p
              simp only [takeElement, hin, Option.map_some', Option.some.injEq,
                Prod.mk.injEq] at h
              obtain ⟨h1, h2⟩ := h
              subst h2
              have := ih (d + 1) ins2 r2 hin
              simp only [List.length_cons]
              omega
      | endEl n =>
          cases d with
          | zero =>
              simp only [takeElement, Option.some.injEq, Prod.mk.injEq] at h
              obtain ⟨h1, h2⟩ := h
              subst h2
              simp
          | succ d2 =>
              cases hin : takeElement d2 ts with
              | none => simp [takeElement, hin] at h
              | some p =>
                  obtain ⟨ins2, r2⟩ := p
                  simp only [takeElement, hin, Option.map_some', Option.some.injEq,
                    Prod.mk.injEq] at h
                  obtain ⟨h1, h2⟩ := h
                  subst h2
                  have := ih d2 ins2 r2 hin
                  simp only [List.length_cons]
                  omega
      | text s =>
          cases hin : takeElement d ts with
          | none => simp [takeElement, hin] at h
          | some p =>
              obtain ⟨ins2, r2⟩ := p
              simp only [takeElement, hin, Option.map_some', Option.some.injEq,
                Prod.mk.injEq] at h
              obtain ⟨h1, h2⟩ := h
              subst h2
              have := ih d ins2 r2 hin
              simp only [List.length_cons]
              omega
      | raw b =>
          cases hin : takeElement d ts with
          | none => simp [takeElement, hin] at h
          | some p =>
              obtain ⟨ins2, r2⟩ := p
              simp only [takeElement, hin, Option.map_some', Option.some.injEq,
                Prod.mk.injEq] at h
              obtain ⟨h1, h2⟩ := h
              subst h2
              have := ih d ins2 r2 hin
              simp only [List.length_cons]
              omega

/-- The inside tokens of the last direct child element (depth 0) whose local
name is `loc`, mirroring how `encoding/xml` unmarshals a struct field: every
matching child is decoded into the field, so the last one wins; `none` when
no child matches. -/
def childLast (loc : String) : List Tok → Option (List Tok)
  | [] => none
  | .startEl n _ :: rest =>
      match h : takeElement 0 rest with
      | none => none
      | some (inside, rest2) =>
          match childLast loc rest2 with
          | some r => some r
          | none => if (splitName n).2 == loc then some inside else none
  | .endEl _ :: rest => childLast loc rest
  | .text _ :: rest => childLast loc rest
  | .raw _ :: rest => childLast loc rest
termination_by l => l.length
decreasing_by
  · have := takeElement_shrink 0 rest inside rest2 h
    simp only [List.length_cons]
    omega
  · simp
  · simp
  · simp

/-- The character data directly inside an element (child elements are
skipped, their content not included), mirroring how `encoding/xml` fills a
string field. -/
def textOf : List Tok → String
  | [] => ""
  | .text s :: rest => s ++ textOf rest
  | .startEl _ _ :: rest =>
      match h : takeElement 0 rest with
      | none => ""
      | some (_, rest2) => textOf rest2
  | .endEl _ :: rest => textOf rest
  | .raw _ :: rest => textOf rest
termination_by l => l.length
decreasing_by
  · simp
  · rename_i inside
    have := takeElement_shrink 0 rest inside rest2 h
    simp only [List.length_cons]
    omega
  · simp
  · simp

/-- `soap.Password`: the password part of the username token.  The Go field
`Type` (the XML attribute name) is embedded as `TypeAttr` because `Type` is
a Lean keyword. -/
structure Password where
  TypeAttr : String
  Password : String
deriving DecidableEq, Repr

/-- `soap.Nonce`: the nonce part of the username token. -/
structure Nonce where
  EncodingType : String
  Nonce : String
deriving DecidableEq, Repr

/-- `soap.UsernameToken`. Pointer fields become `Option`. -/
structure UsernameToken where
  Username : String
  Password : Option Password
  Nonce : Option Nonce
  Created : String
deriving DecidableEq, Repr

/-- `soap.Security`: a SOAP security header. -/
structure Security where
  UsernameToken : Option UsernameToken
deriving DecidableEq, Repr

/-- `soap.Header`: a SOAP message header. -/
structure Header where
  Security : Option Security
deriving DecidableEq, Repr

/-- `soap.Body`: a SOAP message body; `InnerXML` is the raw inner bytes. -/
structure Body where
  Fault : Option Fault
  InnerXML : List Nat
deriving DecidableEq, Repr

/-- `soap.Envelope`. Pointer fields become `Option`. -/
structure Envelope where
  Namespaces : List (String × String)
  Header : Option Header
  Body : Option Body
deriving DecidableEq, Repr

/-- Reflection-based decode of a `Fault` from the tokens inside the `Fault`
element: `Code` comes from the path `Code>Value`, `SubCode` from
`Code>Subcode>Value`, `Reason` from `Reason>Text`, `Node`/`Role` from the
equally named children, `Detail` captures the raw inner bytes.  The
`Namespaces` field is left empty here; `Envelope.UnmarshalXML` copies the
envelope's table into it after the body is decoded. -/
def parseFault (toks : List Tok) : Fault :=
  let codeIn := (childLast "Code" toks).getD []
  { Namespaces := []
    Code := textOf ((childLast "Value" codeIn).getD [])
    SubCode := textOf ((childLast "Value" ((childLast "Subcode" codeIn).getD [])).getD [])
    Reason := textOf ((childLast "Text" ((childLast "Reason" toks).getD [])).getD [])
    Node := textOf ((childLast "Node" toks).getD [])
    Role := textOf ((childLast "Role" toks).getD [])
    Detail := serializeToks toks }

/-- Reflection-based decode of a `Body` from the tokens inside the `Body`
element: a child element with local name `Fault` fills the `Fault` field,
and `InnerXML` captures all inner bytes (including any fault element). -/
def decodeBody (toks : List Tok) : Body :=
  { Fault := (childLast "Fault" toks).map parseFault
    InnerXML := serializeToks toks }

/-- Decode failures of the codec, mirroring the error returns of
`Envelope.UnmarshalXML` and `Body.Unmarshal` in `src/soap/soap.go`. -/
inductive SoapErr where
  | tokenErr
  | unexpectedToken (n : String)
  | unexpectedTokenType
  | decodeChildErr
  | noStartElement
deriving DecidableEq, Repr

/-- The token loop of `Envelope.UnmarshalXML` (`src/soap/soap.go` lines
114-149): `ns` is the namespace table recovered from the root attributes,
`hdr`/`bd` the header and body decoded so far (`bd` starts as the
synthesized empty body).  A start element named `Header` or `Body` is
decoded into the envelope (a fault's namespace table is populated from
`ns`); any other element name is an `UnexpectedTokenError`; an end element
ends the envelope; non-whitespace character data and any other token kind
are an `UnexpectedTokenTypeError`; stream exhaustion is a token error. -/
def unmarshalLoop (ns : List (String × String)) (hdr : Option Header) (bd : Option Body) :
    List Tok → Except SoapErr (Envelope × List Tok)
  | [] => .error .tokenErr
  | .startEl n _ :: rest =>
      if (splitName n).2 == "Header" then
        match h : takeElement 0 rest with
        | none => .error .decodeChildErr
        | some (_, rest2) => unmarshalLoop ns (some { Security := none }) bd rest2
      else if (splitName n).2 == "Body" then
        match h : takeElement 0 rest with
        | none => .error .decodeChildErr
        | some (inside, rest2) =>
            let b := decodeBody inside
            let b2 := match b.Fault with
              | some f => { b with Fault := some { f with Namespaces := ns } }
              | none => b
            unmarshalLoop ns hdr (some b2) rest2
      else .error (.unexpectedToken n)
  | .endEl _ :: rest => .ok ({ Namespaces := ns, Header := hdr, Body := bd }, rest)
  | .text s :: rest =>
      if s.trim == "" then unmarshalLoop ns hdr bd rest
      else .error .unexpectedTokenType
  | .raw _ :: _ => .error .unexpectedTokenType
termination_by l => l.length
decreasing_by
  · rename_i inside
    have := takeElement_shrink 0 rest inside rest2 h
    simp only [List.length_cons]
    omega
  · have := takeElement_shrink 0 rest inside rest2 h
    simp only [List.length_cons]
    omega
  · simp

/-- `strings.ToLower`, embedded as character-by-character lowering (the
names this codec compares are ASCII). -/
def lowerName (s : String) : String :=
  String.mk (s.data.map Char.toLower)

/-- One attribute step of the namespace-table recovery in
`Envelope.UnmarshalXML`: an attribute whose (case-insensitive) name space
is `xmlns` binds its local name to its value in the table; all other
attributes are ignored. -/
def nsAttrStep (m : List (String × String)) (a : String × String) : List (String × String) :=
  let sn := splitName a.1
  if lowerName sn.1 == "xmlns" then nsInsert m sn.2 a.2 else m

/-- `Envelope.UnmarshalXML` (`src/soap/soap.go` lines 99-150) on a fresh
envelope, given the root start element's attributes and the tokens after
it: recover the namespace table from the `xmlns`-space attributes,
synthesize an empty body, then run the token loop.  The reconstruction of a
decoded `Security` header's content is not modelled (the Go struct tags use
`wsse:`-prefixed names that do not match the namespace-resolved element
names on decode, so the token content would not be reconstructed anyway);
only the header's presence is recorded. -/
def Envelope.UnmarshalXML (attrs : List (String × String)) (toks : List Tok) :
    Except SoapErr (Envelope × List Tok) :=
  let ns := attrs.foldl nsAttrStep []
  unmarshalLoop ns none (some { Fault := none, InnerXML := [] }) toks

/-- `xml.Decoder.Decode` into a fresh `*soap.Envelope`: skip tokens until
the first start element, then run `Envelope.UnmarshalXML`. -/
def xmlDecode : List Tok → Except SoapErr Envelope
  | [] => .error .noStartElement
  | .startEl _ attrs :: rest => (Envelope.UnmarshalXML attrs rest).map (fun p => p.1)
  | _ :: rest => xmlDecode rest

/-- Marshaling of `soap.Password` (reflection over the struct tags). -/
def marshalPassword (p : Password) : List Tok :=
  [.startEl "wsse:Password" [("Type", p.TypeAttr)], .text p.Password, .endEl "wsse:Password"]

/-- Marshaling of `soap.Nonce` (reflection over the struct tags). -/
def marshalNonce (n : Nonce) : List Tok :=
  [.startEl "wsse:Nonce" [("EncodingType", n.EncodingType)], .text n.Nonce, .endEl "wsse:Nonce"]

/-- Marshaling of `soap.UsernameToken` (reflection over the struct tags);
nil pointer fields are omitted. -/
def marshalUsernameToken (u : UsernameToken) : List Tok :=
  [.startEl "wsse:UsernameToken" [],
   .startEl "wsse:Username" [], .text u.Username, .endEl "wsse:Username"]
  ++ (match u.Password with | some p => marshalPassword p | none => [])
  ++ (match u.Nonce with | some n => marshalNonce n | none => [])
  ++ [.startEl "wsu:Created" [], .text u.Created, .endEl "wsu:Created",
      .endEl "wsse:UsernameToken"]

/-- `Security.MarshalXML` (`src/soap/security.go` lines 23-41): a
`wsse:Security` element declaring the two WS-Security namespaces, wrapping
the username token. -/
def marshalSecurity (s : Security) : List Tok :=
  [.startEl "wsse:Security"
     [("xmlns:wsse", NamspaceWSSSecExt), ("xmlns:wsu", NamespaceWSSUtility)]]
  ++ (match s.UsernameToken with | some u => marshalUsernameToken u | none => [])
  ++ [.endEl "wsse:Security"]

/-- Marshaling of the unexported `header` struct used by
`Envelope.MarshalXML`: an `env:Header` element wrapping the security block
when present. -/
def Header.marshalTokens (h : Header) : List Tok :=
  [.startEl "env:Header" []]
  ++ (match h.Security with | some s => marshalSecurity s | none => [])
  ++ [.endEl "env:Header"]

/-- Marshaling of `soap.Fault` (reflection over the struct tags; the
`Code>Value` and `Code>Subcode>Value` paths share the `Code` parent, and
`Detail` is emitted verbatim as inner XML). -/
def Fault.marshalTokens (f : Fault) : List Tok :=
  [.startEl "Fault" [],
   .startEl "Code" [], .startEl "Value" [], .text f.Code, .endEl "Value",
   .startEl "Subcode" [], .startEl "Value" [], .text f.SubCode, .endEl "Value",
   .endEl "Subcode", .endEl "Code",
   .startEl "Reason" [], .startEl "Text" [], .text f.Reason, .endEl "Text",
   .endEl "Reason",
   .startEl "Node" [], .text f.Node, .endEl "Node",
   .startEl "Role" [], .text f.Role, .endEl "Role",
   .raw f.Detail,
   .endEl "Fault"]

/-- Marshaling of the unexported `body` struct used by
`Envelope.MarshalXML`: an `env:Body` element wrapping the optional fault
and the caller-supplied inner bytes verbatim. -/
def Body.marshalTokens (b : Body) : List Tok :=
  [.startEl "env:Body" []]
  ++ (match b.Fault with | some f => f.marshalTokens | none => [])
  ++ [.raw b.InnerXML, .endEl "env:Body"]

/-- `Envelope.MarshalXML` (`src/soap/soap.go` lines 64-96): the
`env:Envelope` start element carries the fixed `xmlns:env` declaration plus
one `xmlns:<name>` attribute per caller-supplied namespace binding; the
header is emitted only when present; the body is emitted only when present
(the Go code guards both with nil checks). -/
def Envelope.MarshalXML (e : Envelope) : List Tok :=
  [.startEl "env:Envelope"
     (("xmlns:env", NamespaceEnvelope) ::
       e.Namespaces.map (fun p => ("xmlns:" ++ p.1, p.2)))]
  ++ (match e.Header with | some h => h.marshalTokens | none => [])
  ++ (match e.Body with | some b => b.marshalTokens | none => [])
  ++ [.endEl "env:Envelope"]

/-- Whether a token is a start element whose local name is `loc`. -/
def isStartLocal (loc : String) : Tok → Bool
  | .startEl n _ => (splitName n).2 == loc
  | _ => false

/-- Number of start elements with local name `loc` in a token list. -/
def countStartLocal (loc : String) (l : List Tok) : Nat :=
  l.countP (isStartLocal loc)

/-- Well-nested token lists: every start element is closed by a matching end
element.  All marshaled output is balanced; the decoder's subtree
consumption (`takeElement`) passes over a balanced region. -/
inductive BalancedToks : List Tok → Prop where
  | nil : BalancedToks []
  | text (s : String) {t : List Tok} : BalancedToks t → BalancedToks (.text s :: t)
  | raw (b : List Nat) {t : List Tok} : BalancedToks t → BalancedToks (.raw b :: t)
  | elem (n : String) (a : List (String × String)) (m : String)
      {inside rest : List Tok} : BalancedToks inside → BalancedToks rest →
      BalancedToks (.startEl n a :: (inside ++ .endEl m :: rest))

/-- `onvif.AuthMode` (`src/unnamed/part_000` lines 105-113): the request
authentication modes `AuthModeNone`, `AuthModeDigest`, `AuthModeWSSecurity`. -/
inductive AuthMode where
  | none
  | digest
  | wsSecurity
deriving DecidableEq, Repr

/-- The `onvif.Client` state that `Client.Do` reads and mutates: the
authentication mode, the credentials, whether the HTTP client's transport
is already a digest challenge-response wrapper (`*digest.Transport`), and a
counter of transport-wrapper installations — each execution of
`c.HTTPClient.Transport = ...` in the source increments it, which makes the
"install only if not already installed" behaviour observable. -/
structure Client where
  AuthMode : AuthMode
  Username : String
  Password : String
  digestInstalled : Bool
  installs : Nat
deriving DecidableEq, Repr

/-- One transport exchange as `Client.Do` observes it: either the POST
fails, or a response arrives with an HTTP status code and a body whose
decode into a `soap.Envelope` either fails (`none`) or yields an envelope. -/
inductive HttpResponse where
  | postErr
  | resp (status : Nat) (body : Option Envelope)
deriving DecidableEq, Repr

/-- The error returns of `Client.Do` (`src/unnamed/part_000` lines
152-263): POST failure, `UnauthorizedError` wrapping an HTTP status,
decode failure, `UnauthorizedError` wrapping a fault, or the fault itself. -/
inductive DoError where
  | postFailure
  | unauthorizedStatus (status : Nat)
  | decodeFailure
  | unauthorizedFault (f : Fault)
  | faultError (f : Fault)
deriving DecidableEq, Repr

/-- The fault carried by a decoded response envelope (`env.Body.Fault`).
The Go code dereferences `env.Body` unconditionally; that is safe because
the decoder guarantees a non-nil Body (claim C2), and the model returns
`none` for an absent body. -/
def envFault (env : Envelope) : Option Fault :=
  match env.Body with
  | some bd => bd.Fault
  | none => none

/-- Measure justifying the termination of `Client.Do`'s self-invocation:
every escalation strictly decreases it (None to Digest, None to WSSecurity,
WSSecurity to Digest). -/
def escFuel : AuthMode → Nat
  | .none => 2
  | .wsSecurity => 1
  | .digest => 0

/-- Escalation order in which the code actually moves the mode forward:
None, then WSSecurity, then Digest (a 401 downgrades WSSecurity to Digest
by design, see the `Client` doc comment in the source). -/
def escRank : AuthMode → Nat
  | .none => 0
  | .wsSecurity => 1
  | .digest => 2

/-- The order claim C4 asserts: None, then Digest, then WSSecurity. -/
def claimRank : AuthMode → Nat
  | .none => 0
  | .digest => 1
  | .wsSecurity => 2

/-- The result of one logical `Client.Do` call: final client state, number
of HTTP requests issued, how many times each of the two escalation paths
fired (the 401-to-Digest path and the unauthorized-fault-to-WSSecurity
path), and the outcome. -/
structure DoResult where
  client : Client
  requests : Nat
  digestRetries : Nat
  wsRetries : Nat
  result : Except DoError Envelope

/-- The auth-parameter step of `Client.Do` (`src/unnamed/part_000` lines
163-179): with credentials configured and the mode already Digest, a digest
transport wrapper is installed if not present; the None case does nothing
and the WSSecurity case builds a fresh Security header, which changes no
client state (its only failure, randomness exhaustion, is treated as never
occurring). -/
def setAuthParams (c : Client) : Client :=
  if c.Username ≠ "" ∧ c.Password ≠ "" ∧ c.AuthMode = .digest ∧ ¬ c.digestInstalled then
    { c with digestInstalled := true, installs := c.installs + 1 }
  else c

/-- The 401-escalation step (`src/unnamed/part_000` lines 231-238): set the
mode to Digest and, only if the transport is not already a digest wrapper,
install one seeded by replaying the 401's challenge (the seeding itself has
no further observable effect in this model). -/
def escalateDigest (c : Client) : Client :=
  if c.digestInstalled then { c with AuthMode := .digest }
  else { c with AuthMode := .digest, digestInstalled := true,
                installs := c.installs + 1 }

/-- `Client.Do` (`src/unnamed/part_000` lines 152-263), embedded over a
stream of transport responses: the k-th HTTP POST receives `resps k`, and
each self-invocation `c.Do(r)` consumes the next response.  Debug printing
and the HTTP request construction are not modelled (the request `r` is
passed through unchanged, as in the source).  The recursion mirrors the
source's self-invocation and is well-founded because every recursive call
strictly decreases `escFuel` of the authentication mode — which is exactly
the state-transition argument of claim C3. -/
def doCall (c : Client) (resps : Nat → HttpResponse) (k : Nat) : DoResult :=
  let c1 := setAuthParams c
  match resps k with
  | .postErr => ⟨c1, 1, 0, 0, .error .postFailure⟩
  | .resp status body =>
      if h401 : status = 401 then
        if hEsc : c.AuthMode ≠ .digest ∧ c.Username ≠ "" ∧ c.Password ≠ "" then
          let r := doCall (escalateDigest c1) resps (k + 1)
          ⟨r.client, r.requests + 1, r.digestRetries + 1, r.wsRetries, r.result⟩
        else ⟨c1, 1, 0, 0, .error (.unauthorizedStatus status)⟩
      else
        match body with
        | none => ⟨c1, 1, 0, 0, .error .decodeFailure⟩
        | some env =>
            match envFault env with
            | some f =>
                if f.IsUnauthorizedError then
                  if hWs : c.AuthMode = .none ∧ c.Username ≠ "" ∧ c.Password ≠ "" then
                    let r := doCall { c1 with AuthMode := .wsSecurity } resps (k + 1)
                    ⟨r.client, r.requests + 1, r.digestRetries, r.wsRetries + 1, r.result⟩
                  else ⟨c1, 1, 0, 0, .error (.unauthorizedFault f)⟩
                else ⟨c1, 1, 0, 0, .error (.faultError f)⟩
            | none => ⟨c1, 1, 0, 0, .ok env⟩
termination_by escFuel c.AuthMode
decreasing_by
  · obtain ⟨h1, h2, h3⟩ := hEsc
    simp only [escalateDigest, setAuthParams]
    split <;> split <;> cases hc : c.AuthMode <;> simp_all [escFuel]
  · obtain ⟨h1, h2, h3⟩ := hWs
    simp [h1, escFuel]

/-- 32-bit truncation (`uint32` arithmetic). -/
def w32 (x : Nat) : Nat := x % 4294967296

/-- 32-bit left rotation of a 32-bit value. -/
def rotl32 (n x : Nat) : Nat := w32 (x * 2 ^ n + x / 2 ^ (32 - n))

/-- SHA-1 round function (FIPS 180-4): Ch for rounds 0-19, Parity for
20-39 and 60-79, Maj for 40-59.  Bitwise-not of a 32-bit value is xor with
the all-ones mask. -/
def sha1F (t b c d : Nat) : Nat :=
  if t < 20 then (b &&& c) ||| ((b ^^^ 4294967295) &&& d)
  else if t < 40 then b ^^^ c ^^^ d
  else if t < 60 then (b &&& c) ||| (b &&& d) ||| (c &&& d)
  else b ^^^ c ^^^ d

/-- SHA-1 round constants (FIPS 180-4). -/
def sha1K (t : Nat) : Nat :=
  if t < 20 then 1518500249
  else if t < 40 then 1859775393
  else if t < 60 then 2400959708
  else 3395469782

/-- Big-endian 32-bit words from bytes. -/
def toWords : List Nat → List Nat
  | b0 :: b1 :: b2 :: b3 :: rest =>
      (((b0 * 256 + b1) * 256 + b2) * 256 + b3) :: toWords rest
  | _ => []

/-- SHA-1 message schedule: extend 16 words to 80. -/
def extendWords (w : List Nat) : List Nat :=
  (List.range 64).foldl
    (fun w _ =>
      w ++ [rotl32 1 ((w.getD (w.length - 3) 0) ^^^ (w.getD (w.length - 8) 0) ^^^
        (w.getD (w.length - 14) 0) ^^^ (w.getD (w.length - 16) 0))])
    w

/-- One SHA-1 block compression (FIPS 180-4). -/
def sha1Compress (h : Nat × Nat × Nat × Nat × Nat) (block : List Nat) :
    Nat × Nat × Nat × Nat × Nat :=
  let ws := extendWords (toWords block)
  let st := (List.range 80).foldl
    (fun (st : Nat × Nat × Nat × Nat × Nat) t =>
      let temp := w32 (rotl32 5 st.1 + sha1F t st.2.1 st.2.2.1 st.2.2.2.1 +
        st.2.2.2.2 + sha1K t + ws.getD t 0)
      (temp, st.1, rotl32 30 st.2.1, st.2.2.1, st.2.2.2.1)) h
  (w32 (h.1 + st.1), w32 (h.2.1 + st.2.1), w32 (h.2.2.1 + st.2.2.1),
   w32 (h.2.2.2.1 + st.2.2.2.1), w32 (h.2.2.2.2 + st.2.2.2.2))

/-- Big-endian 64-bit byte encoding. -/
def be64 (n : Nat) : List Nat :=
  [n / 72057594037927936 % 256, n / 281474976710656 % 256, n / 1099511627776 % 256,
   n / 4294967296 % 256, n / 16777216 % 256, n / 65536 % 256, n / 256 % 256, n % 256]

/-- Big-endian 32-bit byte encoding. -/
def be32 (n : Nat) : List Nat :=
  [n / 16777216 % 256, n / 65536 % 256, n / 256 % 256, n % 256]

/-- SHA-1 padding: a 0x80 byte, zeros to 56 mod 64, then the bit length as
a big-endian 64-bit integer. -/
def sha1Pad (msg : List Nat) : List Nat :=
  msg ++ [128] ++ List.replicate ((119 - msg.length % 64) % 64) 0 ++ be64 (8 * msg.length)

/-- Process the given number of 64-byte blocks. -/
def sha1Blocks : Nat → (Nat × Nat × Nat × Nat × Nat) → List Nat →
    Nat × Nat × Nat × Nat × Nat
  | 0, h, _ => h
  | n + 1, h, bytes => sha1Blocks n (sha1Compress h (bytes.take 64)) (bytes.drop 64)

/-- SHA-1 of a byte sequence (FIPS 180-4), the hash `crypto/sha1` computes:
the embedding of `hash.Write`/`hash.Sum` as used by `NewSecurity`. -/
def sha1 (msg : List Nat) : List Nat :=
  let padded := sha1Pad msg
  let h := sha1Blocks (padded.length / 64)
    (1732584193, 4023233417, 2562383102, 271733878, 3285377520) padded
  be32 h.1 ++ be32 h.2.1 ++ be32 h.2.2.1 ++ be32 h.2.2.2.1 ++ be32 h.2.2.2.2

/-- The standard base64 alphabet (RFC 4648), as used by
`encoding/base64.StdEncoding`. -/
def b64Alphabet : List Char :=
  "ABCDEFGHIJKLMNOPQRSTUVWXYZabcdefghijklmnopqrstuvwxyz0123456789+/".data

/-- The base64 character for a 6-bit value. -/
def b64Char (i : Nat) : Char := b64Alphabet.getD i 'A'

/-- Standard base64 encoding with `=` padding
(`base64.StdEncoding.EncodeToString`), 3 bytes at a time. -/
def b64EncodeCore : List Nat → List Char
  | [] => []
  | [x] =>
      let n := x * 65536
      [b64Char (n / 262144), b64Char (n / 4096 % 64), '=', '=']
  | [x, y] =>
      let n := x * 65536 + y * 256
      [b64Char (n / 262144), b64Char (n / 4096 % 64), b64Char (n / 64 % 64), '=']
  | x :: y :: z :: rest =>
      let n := x * 65536 + y * 256 + z
      b64Char (n / 262144) :: b64Char (n / 4096 % 64) :: b64Char (n / 64 % 64) ::
        b64Char (n % 64) :: b64EncodeCore rest

/-- `base64.StdEncoding.EncodeToString` on a byte list. -/
def base64Encode (l : List Nat) : String := String.mk (b64EncodeCore l)

/-- The 6-bit value of a base64 character, `none` for a character outside
the alphabet. -/
def b64Index (c : Char) : Option Nat :=
  let i := b64Alphabet.indexOf c
  if i < 64 then some i else none

/-- Standard base64 decoding with `=` padding, 4 characters at a time;
`none` on malformed input.  Used to state the self-consistency property of
claim C10 ("base64-decoding the Nonce field"). -/
def b64DecodeCore : List Char → Option (List Nat)
  | c1 :: c2 :: c3 :: c4 :: rest =>
      if c3 = '=' ∧ c4 = '=' ∧ rest = [] then
        match b64Index c1, b64Index c2 with
        | some i1, some i2 => some [(i1 * 4 + i2 / 16) % 256]
        | _, _ => none
      else if c4 = '=' ∧ rest = [] then
        match b64Index c1, b64Index c2, b64Index c3 with
        | some i1, some i2, some i3 =>
            let n := i1 * 262144 + i2 * 4096 + i3 * 64
            some [n / 65536, n / 256 % 256]
        | _, _, _ => none
      else
        match b64Index c1, b64Index c2, b64Index c3, b64Index c4,
            b64DecodeCore rest with
        | some i1, some i2, some i3, some i4, some bs =>
            let n := i1 * 262144 + i2 * 4096 + i3 * 64 + i4
            some (n / 65536 :: n / 256 % 256 :: n % 256 :: bs)
        | _, _, _, _, _ => none
  | [] => some []
  | _ => none

/-- Standard base64 decoding of a string. -/
def base64Decode (s : String) : Option (List Nat) := b64DecodeCore s.data

/-- `soap.typePassword`: the password-digest profile identifier. -/
def typePassword : String := "http://docs.oasis-open.org/wss/2004/01/oasis-200401-wss-username-token-profile-1.0#PasswordDigest"

/-- `soap.typeNonce`: the base64-binary nonce encoding identifier. -/
def typeNonce : String := "http://docs.oasis-open.org/wss/2004/01/oasis-200401-wss-soap-message-security-1.0#Base64Binary"

/-- `soap.NewSecurity` (`src/soap/security.go` lines 67-93), with the two
effectful inputs made explicit: `randByte i` is the i-th byte `crypto/rand`
delivers for the 16-byte nonce (reduced mod 256 to a byte), and `created`
is the captured UTC time already formatted with the layout
"2006-01-02T15:04:05" (whole seconds).  The digest is one SHA-1 pass over
nonce, then timestamp bytes, then password bytes; nonce and digest are
base64 encoded.  Randomness-source failure — the only failure path — is
treated as never occurring. -/
def NewSecurity (randByte : Nat → Nat) (created username password : String) : Security :=
  let nonce := (List.range 16).map (fun i => randByte i % 256)
  let digest := sha1 (nonce ++ strBytes created ++ strBytes password)
  ⟨some ⟨username, some ⟨typePassword, base64Encode digest⟩,
    some ⟨typeNonce, base64Encode nonce⟩, created⟩⟩

theorem foldl_pfxStep_fst (l : List (String × String)) (a b : String) :
    (l.foldl pfxStep (a, b)).1 =
      match l.reverse.find? (fun p => p.2 == NamespaceEnvelope) with
      | some p => p.1 ++ ":"
      | none => a := by
  induction l generalizing a b with
  | nil => rfl
  | cons p t ih =>
      simp only [List.foldl_cons, List.reverse_cons, List.find?_append]
      by_cases h1 : p.2 == NamespaceEnvelope
      · simp only [pfxStep, h1, if_pos]
        rw [ih]
        cases hf : t.reverse.find? (fun q => q.2 == NamespaceEnvelope) <;>
          simp [hf, List.find?, h1]
      · by_cases h2 : p.2 == NamespaceONVIFError
        · simp only [pfxStep, h1, h2, if_neg, if_pos, Bool.not_eq_true]
          rw [ih]
          cases hf : t.reverse.find? (fun q => q.2 == NamespaceEnvelope) <;>
            simp [hf, List.find?, h1]
        · simp only [pfxStep, h1, h2, if_neg, Bool.not_eq_true]
          rw [ih]
          cases hf : t.reverse.find? (fun q => q.2 == NamespaceEnvelope) <;>
            simp [hf, List.find?, h1]

theorem foldl_pfxStep_snd (l : List (String × String)) (a b : String) :
    (l.foldl pfxStep (a, b)).2 =
      match l.reverse.find? (fun p => p.2 == NamespaceONVIFError) with
      | some p => p.1 ++ ":"
      | none => b := by
  induction l generalizing a b with
  | nil => rfl
  | cons p t ih =>
      simp only [List.foldl_cons, List.reverse_cons, List.find?_append]
      by_cases h1 : p.2 == NamespaceEnvelope
      · have hne : ¬(p.2 == NamespaceONVIFError) = true := by
          intro hc
          rw [beq_iff_eq] at h1 hc
          rw [h1] at hc
          exact absurd hc (by decide)
        simp only [pfxStep, h1, if_pos]
        rw [ih]
        cases hf : t.reverse.find? (fun q => q.2 == NamespaceONVIFError) <;>
          simp [hf, List.find?, hne]
      · by_cases h2 : p.2 == NamespaceONVIFError
        · simp only [pfxStep, h1, h2, if_neg, if_pos, Bool.not_eq_true]
          rw [ih]
          cases hf : t.reverse.find? (fun q => q.2 == NamespaceONVIFError) <;>
            simp [hf, List.find?, h2]
        · simp only [pfxStep, h1, h2, if_neg, Bool.not_eq_true]
          rw [ih]
          cases hf : t.reverse.find? (fun q => q.2 == NamespaceONVIFError) <;>
            simp [hf, List.find?, h2]

/-- Claim C1 (corrected): `Fault.IsUnauthorizedError` returns true iff
`Code` equals `s ++ "Sender"` and `SubCode` equals `e ++ "NotAuthorized"`,
where `s` is the resolved envelope-namespace prefix with a trailing colon
(the empty string when the table binds no prefix to the envelope namespace)
and `e` likewise for the ONVIF error namespace.  In particular, with both
namespaces unbound the unprefixed values "Sender"/"NotAuthorized" still
classify as unauthorized, contrary to the claim as stated. -/
theorem C1_isUnauthorizedError_resolved (f : Fault) :
    f.IsUnauthorizedError =
      ((f.Code == resolvedPfx f.Namespaces NamespaceEnvelope ++ "Sender") &&
       (f.SubCode == resolvedPfx f.Namespaces NamespaceONVIFError ++ "NotAuthorized")) := by
  simp only [Fault.IsUnauthorizedError, resolvedPfx]
  rw [foldl_pfxStep_fst f.Namespaces "" "", foldl_pfxStep_snd f.Namespaces "" ""]

/-- Claim C1 counterexample: a fault whose namespace table is empty (so it
contains no binding to the envelope namespace and none to the error
namespace) with Code "Sender" and SubCode "NotAuthorized" is classified as
unauthorized, while the claim states the function must return false whenever
either binding is absent. -/
theorem C1_counterexample :
    (Fault.IsUnauthorizedError ⟨[], "Sender", "NotAuthorized", "", "", "", []⟩) = true ∧
      (Fault.Namespaces ⟨[], "Sender", "NotAuthorized", "", "", "", []⟩) = [] := by
  constructor
  · rfl
  · rfl

theorem countStartLocal_nil (loc : String) : countStartLocal loc [] = 0 := rfl

theorem countStartLocal_cons (loc : String) (t : Tok) (l : List Tok) :
    countStartLocal loc (t :: l) =
      countStartLocal loc l + (if isStartLocal loc t then 1 else 0) := by
  simp [countStartLocal, List.countP_cons]

theorem countStartLocal_append (loc : String) (l1 l2 : List Tok) :
    countStartLocal loc (l1 ++ l2) = countStartLocal loc l1 + countStartLocal loc l2 := by
  simp [countStartLocal, List.countP_append]

theorem countStartLocal_security_zero (loc : String) (s : Security)
    (h : loc = "Header" ∨ loc = "Body") :
    countStartLocal loc (marshalSecurity s) = 0 := by
  obtain ⟨u⟩ := s
  cases u with
  | none =>
      rcases h with h | h <;> subst h <;>
        simp +decide [marshalSecurity, countStartLocal_cons, countStartLocal_append,
          countStartLocal_nil, isStartLocal]
  | some u =>
      obtain ⟨un, pw, nc, cr⟩ := u
      cases pw <;> cases nc <;> rcases h with h | h <;> subst h <;>
        simp +decide [marshalSecurity, marshalUsernameToken, marshalPassword, marshalNonce,
          countStartLocal_cons, countStartLocal_append, countStartLocal_nil, isStartLocal]

theorem countStartLocal_fault_zero (loc : String) (f : Fault)
    (h : loc = "Header" ∨ loc = "Body") :
    countStartLocal loc f.marshalTokens = 0 := by
  rcases h with h | h <;> subst h <;>
    simp +decide [Fault.marshalTokens, countStartLocal_cons, countStartLocal_append,
      countStartLocal_nil, isStartLocal]

/-- Claim C9 (corrected): `Envelope.MarshalXML` emits a Header element iff
the envelope's Header is present, and emits a Body element iff the Body is
present (a nil Body produces no Body element — the Go code guards the body
with a nil check, so "always emits a Body" fails for a nil Body);
whenever the Body is present, the emitted Body element wraps the optional
fault followed by the caller-supplied payload bytes verbatim. -/
theorem C9_marshal_structure (e : Envelope) :
    countStartLocal "Header" e.MarshalXML = (if e.Header.isSome then 1 else 0) ∧
    countStartLocal "Body" e.MarshalXML = (if e.Body.isSome then 1 else 0) ∧
    ∀ b, e.Body = some b →
      List.IsInfix
        ([.startEl "env:Body" []] ++
          (match b.Fault with | some f => f.marshalTokens | none => []) ++
          [.raw b.InnerXML, .endEl "env:Body"])
        e.MarshalXML := by
  have hsH : ∀ s, countStartLocal "Header" (marshalSecurity s) = 0 :=
    fun s => countStartLocal_security_zero _ s (Or.inl rfl)
  have hsB : ∀ s, countStartLocal "Body" (marshalSecurity s) = 0 :=
    fun s => countStartLocal_security_zero _ s (Or.inr rfl)
  have hfH : ∀ f : Fault, countStartLocal "Header" f.marshalTokens = 0 :=
    fun f => countStartLocal_fault_zero _ f (Or.inl rfl)
  have hfB : ∀ f : Fault, countStartLocal "Body" f.marshalTokens = 0 :=
    fun f => countStartLocal_fault_zero _ f (Or.inr rfl)
  obtain ⟨ns, hdr, bd⟩ := e
  refine ⟨?_, ?_, ?_⟩
  · rcases hdr with _ | ⟨_ | s⟩ <;> rcases bd with _ | ⟨_ | f, bi⟩ <;>
      simp +decide [Envelope.MarshalXML, Header.marshalTokens, Body.marshalTokens,
        hsH, hfH, countStartLocal_cons, countStartLocal_append, countStartLocal_nil,
        isStartLocal]
  · rcases hdr with _ | ⟨_ | s⟩ <;> rcases bd with _ | ⟨_ | f, bi⟩ <;>
      simp +decide [Envelope.MarshalXML, Header.marshalTokens, Body.marshalTokens,
        hsB, hfB, countStartLocal_cons, countStartLocal_append, countStartLocal_nil,
        isStartLocal]
  · intro b hb
    simp only at hb
    subst hb
    refine ⟨[Tok.startEl "env:Envelope"
        (("xmlns:env", NamespaceEnvelope) :: ns.map (fun p => ("xmlns:" ++ p.1, p.2)))] ++
        (match hdr with | some h => h.marshalTokens | none => []),
      [Tok.endEl "env:Envelope"], ?_⟩
    simp [Envelope.MarshalXML, Body.marshalTokens, List.append_assoc]

/-- Claim C9 counterexample: an envelope with a nil Body produces no Body
element at all, while the claim states a Body element is always emitted for
every Envelope given to Encode. -/
theorem C9_counterexample :
    countStartLocal "Body"
      (Envelope.MarshalXML { Namespaces := [], Header := none, Body := none }) = 0 := by
  decide

/-- Claim C9 witness: the theorem applied to a concrete envelope with a
present body and no header. -/
theorem C9_witness :
    countStartLocal "Header"
        (Envelope.MarshalXML
          { Namespaces := [("tds", "http://www.onvif.org/ver10/device/wsdl")],
            Header := none,
            Body := some { Fault := none, InnerXML := [60, 97, 47, 62] } }) = 0 ∧
      List.IsInfix
        [Tok.startEl "env:Body" [], Tok.raw [60, 97, 47, 62], Tok.endEl "env:Body"]
        (Envelope.MarshalXML
          { Namespaces := [("tds", "http://www.onvif.org/ver10/device/wsdl")],
            Header := none,
            Body := some { Fault := none, InnerXML := [60, 97, 47, 62] } }) := by
  constructor
  · exact (C9_marshal_structure
      { Namespaces := [("tds", "http://www.onvif.org/ver10/device/wsdl")],
        Header := none,
        Body := some { Fault := none, InnerXML := [60, 97, 47, 62] } }).1
  · exact (C9_marshal_structure
      { Namespaces := [("tds", "http://www.onvif.org/ver10/device/wsdl")],
        Header := none,
        Body := some { Fault := none, InnerXML := [60, 97, 47, 62] } }).2.2
      { Fault := none, InnerXML := [60, 97, 47, 62] } rfl

theorem unmarshalLoop_body_isSome :
    ∀ (n : Nat) (toks : List Tok), toks.length ≤ n →
      ∀ ns hdr bd env rest, bd.isSome = true →
        unmarshalLoop ns hdr bd toks = .ok (env, rest) → env.Body.isSome = true := by
  intro n
  induction n with
  | zero =>
      intro toks hlen ns hdr bd env rest hbd h
      have : toks = [] := by
        cases toks with
        | nil => rfl
        | cons t ts => simp at hlen
      subst this
      simp [unmarshalLoop] at h
  | succ n ih =>
      intro toks hlen ns hdr bd env rest hbd h
      cases toks with
      | nil => simp [unmarshalLoop] at h
      | cons t ts =>
          cases t with
          | startEl nm a =>
              simp only [unmarshalLoop] at h
              split at h
              · split at h
                · exact absurd h (by simp)
                · rename_i inside rest2 hte
                  have hlt := takeElement_shrink 0 ts inside rest2 hte
                  have : rest2.length ≤ n := by
                    simp only [List.length_cons] at hlen
                    omega
                  exact ih rest2 this ns _ bd env rest hbd h
              · split at h
                · split at h
                  · exact absurd h (by simp)
                  · rename_i inside rest2 hte
                    have hlt := takeElement_shrink 0 ts inside rest2 hte
                    have : rest2.length ≤ n := by
                      simp only [List.length_cons] at hlen
                      omega
                    exact ih rest2 this ns hdr _ env rest (by simp) h
                · exact absurd h (by simp)
          | endEl nm =>
              simp only [unmarshalLoop, Except.ok.injEq, Prod.mk.injEq] at h
              obtain ⟨h1, h2⟩ := h
              subst h1
              exact hbd
          | text s =>
              simp only [unmarshalLoop] at h
              split at h
              · have : ts.length ≤ n := by
                  simp only [List.length_cons] at hlen
                  omega
                exact ih ts this ns hdr bd env rest hbd h
              · exact absurd h (by simp)
          | raw b =>
              simp [unmarshalLoop] at h

/-- Claim C2 (corrected): after every successful decode the resulting
envelope's Body is non-nil (the decoder synthesizes an empty Body before
its token loop); however, decoding a root element that contains no Body
child is NOT an error — it succeeds with the synthesized empty Body, so
the first half of the claim as stated fails on the code. -/
theorem C2_decode_body_nonNil (toks : List Tok) (env : Envelope)
    (h : xmlDecode toks = .ok env) : env.Body.isSome = true := by
  induction toks with
  | nil => simp [xmlDecode] at h
  | cons t ts ih =>
      cases t with
      | startEl nm attrs =>
          simp only [xmlDecode] at h
          cases hu : Envelope.UnmarshalXML attrs ts with
          | error e => rw [hu] at h; exact absurd h (by simp [Except.map])
          | ok p =>
              obtain ⟨env2, rest⟩ := p
              rw [hu] at h
              simp only [Except.map, Except.ok.injEq] at h
              subst h
              simp only [Envelope.UnmarshalXML] at hu
              exact unmarshalLoop_body_isSome ts.length ts le_rfl _ none _ env2 rest (by simp) hu
      | endEl nm => simp only [xmlDecode] at h; exact ih h
      | text s => simp only [xmlDecode] at h; exact ih h
      | raw b => simp only [xmlDecode] at h; exact ih h

/-- Claim C2 counterexample: a document whose root element contains no Body
child decodes successfully (with the synthesized empty Body), while the
claim states that the absence of a Body element is a decode failure. -/
theorem C2_counterexample :
    xmlDecode [Tok.startEl "env:Envelope" [], Tok.endEl "env:Envelope"] =
      .ok { Namespaces := [], Header := none,
            Body := some { Fault := none, InnerXML := [] } } := by
  simp [xmlDecode, Envelope.UnmarshalXML, unmarshalLoop, Except.map]

/-- Claim C2 witness: the theorem applied to a concrete decodable document. -/
theorem C2_witness :
    (({ Namespaces := [], Header := none,
        Body := some { Fault := none, InnerXML := [] } } : Envelope)).Body.isSome = true := by
  exact C2_decode_body_nonNil [Tok.startEl "a" [], Tok.endEl "a"] _
    (by simp [xmlDecode, Envelope.UnmarshalXML, unmarshalLoop, Except.map])

theorem mk_data (s : String) : String.mk s.data = s := by
  cases s
  rfl

theorem splitNameCore_no_colon (pre l : List Char) (h : ':' ∉ pre) :
    splitNameCore (pre ++ ':' :: l) = some (pre, l) := by
  induction pre with
  | nil => simp [splitNameCore]
  | cons c t ih =>
      have h2 : ¬(':' = c ∨ ':' ∈ t) := by simpa using h
      have hc : ¬ c = ':' := fun hcc => h2 (Or.inl hcc.symm)
      have ht : ':' ∉ t := fun hm => h2 (Or.inr hm)
      simp only [List.cons_append, splitNameCore, if_neg hc, List.append_eq]
      rw [ih ht]
      rfl

theorem splitName_xmlns (n : String) : splitName ("xmlns:" ++ n) = ("xmlns", n) := by
  have hd : ("xmlns:" ++ n).data = ['x', 'm', 'l', 'n', 's'] ++ ':' :: n.data := by
    rw [String.data_append]
    rfl
  unfold splitName
  rw [hd, splitNameCore_no_colon ['x', 'm', 'l', 'n', 's'] n.data (by decide)]

theorem nsAttrStep_xmlns (m : List (String × String)) (k v : String) :
    nsAttrStep m ("xmlns:" ++ k, v) = nsInsert m k v := by
  have hl : (lowerName "xmlns" == "xmlns") = true := by decide
  simp [nsAttrStep, splitName_xmlns, hl]

theorem lookup_nsInsert (m : List (String × String)) (k v q : String) :
    (nsInsert m k v).lookup q = if q == k then some v else m.lookup q := by
  induction m with
  | nil =>
      by_cases hq : q = k
      · subst hq
        simp [nsInsert, List.lookup]
      · have hf : (q == k) = false := beq_eq_false_iff_ne.mpr hq
        simp [nsInsert, List.lookup, hf]
  | cons p t ih =>
      obtain ⟨a, b⟩ := p
      simp only [nsInsert]
      by_cases hak : a = k
      · subst hak
        rw [if_pos (by simp)]
        by_cases hq : q = a
        · subst hq
          simp [List.lookup]
        · have hf : (q == a) = false := beq_eq_false_iff_ne.mpr hq
          simp [List.lookup, hf]
      · rw [if_neg (by simpa using hak)]
        by_cases hq : q = a
        · subst hq
          have hfk : (q == k) = false := beq_eq_false_iff_ne.mpr hak
          simp [List.lookup, hfk]
        · have hf : (q == a) = false := beq_eq_false_iff_ne.mpr hq
          simp [List.lookup, hf, ih]

theorem lookup_eq_none_of_not_mem (l : List (String × String)) (q : String)
    (h : q ∉ l.map Prod.fst) : l.lookup q = none := by
  induction l with
  | nil => rfl
  | cons p t ih =>
      obtain ⟨a, b⟩ := p
      simp only [List.map_cons, List.mem_cons] at h
      push_neg at h
      have hf : (q == a) = false := beq_eq_false_iff_ne.mpr h.1
      simp [List.lookup, hf, ih h.2]

theorem foldl_nsAttrStep_lookup :
    ∀ (elist m : List (String × String)) (q : String),
      (elist.map Prod.fst).Nodup →
      ((elist.map (fun p => ("xmlns:" ++ p.1, p.2))).foldl nsAttrStep m).lookup q =
        (match elist.lookup q with
         | some v => some v
         | none => m.lookup q) := by
  intro elist
  induction elist with
  | nil => intro m q h; rfl
  | cons p t ih =>
      intro m q hnd
      obtain ⟨k, v⟩ := p
      simp only [List.map_cons, List.foldl_cons, nsAttrStep_xmlns]
      simp only [List.map_cons, List.nodup_cons] at hnd
      rw [ih (nsInsert m k v) q hnd.2]
      by_cases hqk : q = k
      · subst hqk
        have hnone : t.lookup q = none :=
          lookup_eq_none_of_not_mem t q hnd.1
        simp [List.lookup, hnone, lookup_nsInsert]
      · have hf : (q == k) = false := beq_eq_false_iff_ne.mpr hqk
        simp only [List.lookup, hf, lookup_nsInsert]
        cases t.lookup q <;> simp [hf]

theorem balancedToks_append {l1 l2 : List Tok}
    (h1 : BalancedToks l1) (h2 : BalancedToks l2) : BalancedToks (l1 ++ l2) := by
  induction h1 with
  | nil => exact h2
  | text s h ih => exact .text s ih
  | raw b h ih => exact .raw b ih
  | elem n a m hin hrest ihin ihrest =>
      rename_i inside rest
      have h3 : (Tok.startEl n a :: (inside ++ Tok.endEl m :: rest)) ++ l2 =
          Tok.startEl n a :: (inside ++ Tok.endEl m :: (rest ++ l2)) := by
        simp
      rw [h3]
      exact .elem n a m hin ihrest

theorem takeElement_balanced {bal : List Tok} (hb : BalancedToks bal) :
    ∀ (d : Nat) (l : List Tok),
      takeElement d (bal ++ l) = (takeElement d l).map (fun p => (bal ++ p.1, p.2)) := by
  induction hb with
  | nil =>
      intro d l
      cases he : takeElement d l <;> simp [he]
  | text s h ih =>
      intro d l
      simp only [List.cons_append, takeElement, ih d l]
      cases he : takeElement d l <;> simp [he]
  | raw b h ih =>
      intro d l
      simp only [List.cons_append, takeElement, ih d l]
      cases he : takeElement d l <;> simp [he]
  | elem n a m hin hrest ihin ihrest =>
      intro d l
      rename_i inside rest
      have hshape : (Tok.startEl n a :: (inside ++ Tok.endEl m :: rest)) ++ l =
          Tok.startEl n a :: (inside ++ (Tok.endEl m :: (rest ++ l))) := by
        simp
      rw [hshape]
      simp only [takeElement, ihin (d + 1) (Tok.endEl m :: (rest ++ l))]
      simp only [takeElement, ihrest d l]
      cases he : takeElement d l <;> simp [he, List.append_assoc]

theorem takeElement_close {bal : List Tok} (hb : BalancedToks bal)
    (n : String) (l : List Tok) :
    takeElement 0 (bal ++ Tok.endEl n :: l) = some (bal, l) := by
  rw [takeElement_balanced hb 0 (Tok.endEl n :: l)]
  simp [takeElement]

theorem balanced_wrap (n : String) (a : List (String × String)) (m : String)
    {ins : List Tok} (h : BalancedToks ins) :
    BalancedToks (.startEl n a :: (ins ++ [.endEl m])) :=
  BalancedToks.elem n a m h BalancedToks.nil

theorem balanced_marshalPassword (p : Password) :
    BalancedToks (marshalPassword p) :=
  balanced_wrap "wsse:Password" [("Type", p.TypeAttr)] "wsse:Password"
    (BalancedToks.text p.Password BalancedToks.nil)

theorem balanced_marshalNonce (n : Nonce) :
    BalancedToks (marshalNonce n) :=
  balanced_wrap "wsse:Nonce" [("EncodingType", n.EncodingType)] "wsse:Nonce"
    (BalancedToks.text n.Nonce BalancedToks.nil)

theorem balanced_triple (n : String) (a : List (String × String)) (m s : String) :
    BalancedToks [.startEl n a, .text s, .endEl m] :=
  balanced_wrap n a m (BalancedToks.text s BalancedToks.nil)

theorem balanced_marshalUsernameToken (u : UsernameToken) :
    BalancedToks (marshalUsernameToken u) := by
  have hP : BalancedToks
      (match u.Password with | some p => marshalPassword p | none => []) := by
    cases u.Password with
    | none => exact .nil
    | some p => exact balanced_marshalPassword p
  have hN : BalancedToks
      (match u.Nonce with | some n => marshalNonce n | none => []) := by
    cases u.Nonce with
    | none => exact .nil
    | some n => exact balanced_marshalNonce n
  have hIN : BalancedToks
      ([Tok.startEl "wsse:Username" [], Tok.text u.Username, Tok.endEl "wsse:Username"] ++
        ((match u.Password with | some p => marshalPassword p | none => []) ++
          ((match u.Nonce with | some n => marshalNonce n | none => []) ++
            [Tok.startEl "wsu:Created" [], Tok.text u.Created, Tok.endEl "wsu:Created"]))) :=
    balancedToks_append (balanced_triple _ _ _ _)
      (balancedToks_append hP (balancedToks_append hN (balanced_triple _ _ _ _)))
  have hshape : marshalUsernameToken u =
      Tok.startEl "wsse:UsernameToken" [] ::
        (([Tok.startEl "wsse:Username" [], Tok.text u.Username, Tok.endEl "wsse:Username"] ++
          ((match u.Password with | some p => marshalPassword p | none => []) ++
            ((match u.Nonce with | some n => marshalNonce n | none => []) ++
              [Tok.startEl "wsu:Created" [], Tok.text u.Created, Tok.endEl "wsu:Created"]))) ++
          Tok.endEl "wsse:UsernameToken" :: []) := by
    simp [marshalUsernameToken, List.append_assoc]
  rw [hshape]
  exact BalancedToks.elem _ _ _ hIN BalancedToks.nil

theorem balanced_marshalSecurity (s : Security) :
    BalancedToks (marshalSecurity s) := by
  have hU : BalancedToks
      (match s.UsernameToken with | some u => marshalUsernameToken u | none => []) := by
    cases s.UsernameToken with
    | none => exact .nil
    | some u => exact balanced_marshalUsernameToken u
  have hshape : marshalSecurity s =
      Tok.startEl "wsse:Security"
          [("xmlns:wsse", NamspaceWSSSecExt), ("xmlns:wsu", NamespaceWSSUtility)] ::
        ((match s.UsernameToken with | some u => marshalUsernameToken u | none => []) ++
          Tok.endEl "wsse:Security" :: []) := by
    simp [marshalSecurity]
  rw [hshape]
  exact BalancedToks.elem _ _ _ hU BalancedToks.nil

theorem unmarshalLoop_bodyToks (bi : List Nat) (ns2 : List (String × String))
    (hdr2 : Option Header) :
    unmarshalLoop ns2 hdr2 (some { Fault := none, InnerXML := [] })
      [Tok.startEl "env:Body" [], Tok.raw bi, Tok.endEl "env:Body",
       Tok.endEl "env:Envelope"] =
    .ok ({ Namespaces := ns2, Header := hdr2,
           Body := some { Fault := none, InnerXML := bi } }, []) := by
  simp +decide [unmarshalLoop, takeElement, decodeBody, childLast, serializeToks,
    serializeTok]

theorem lookup_after_roundtrip (e : Envelope)
    (hnd : (e.Namespaces.map Prod.fst).Nodup) (q : String) :
    ((("xmlns:env", NamespaceEnvelope) ::
        e.Namespaces.map (fun p => ("xmlns:" ++ p.1, p.2))).foldl nsAttrStep []).lookup q =
      (match e.Namespaces.lookup q with
       | some v => some v
       | none => if q == "env" then some NamespaceEnvelope else none) := by
  simp only [List.foldl_cons]
  have h0 : nsAttrStep [] ("xmlns:env", NamespaceEnvelope) =
      [("env", NamespaceEnvelope)] := by
    rw [show ("xmlns:env" : String) = "xmlns:" ++ "env" from by decide]
    rw [nsAttrStep_xmlns]
    rfl
  rw [h0, foldl_nsAttrStep_lookup e.Namespaces [("env", NamespaceEnvelope)] q hnd]
  cases e.Namespaces.lookup q with
  | some v => rfl
  | none =>
      by_cases hq : q = "env"
      · subst hq
        simp [List.lookup]
      · have hfq : (q == "env") = false := beq_eq_false_iff_ne.mpr hq
        simp [List.lookup, hfq]

/-- Claim C5 (corrected): decoding the tokens produced by encoding an
envelope whose Body is present and fault-free succeeds; the decoded
namespace table agrees with the original bindings on every prefix bound in
the original, and additionally binds `env` to the envelope namespace when
the original leaves `env` unbound (encode always adds the fixed `xmlns:env`
declaration, so the exact table equality the claim states fails); the Body
payload bytes are reproduced exactly. -/
theorem C5_roundtrip (e : Envelope) (b : Body)
    (hb : e.Body = some b) (hf : b.Fault = none)
    (hnd : (e.Namespaces.map Prod.fst).Nodup) :
    ∃ env2, xmlDecode e.MarshalXML = .ok env2 ∧
      (∀ q, env2.Namespaces.lookup q =
        (match e.Namespaces.lookup q with
         | some v => some v
         | none => if q == "env" then some NamespaceEnvelope else none)) ∧
      env2.Body = some { Fault := none, InnerXML := b.InnerXML } := by
  cases hh : e.Header with
  | none =>
      refine ⟨⟨(("xmlns:env", NamespaceEnvelope) ::
          e.Namespaces.map (fun p => ("xmlns:" ++ p.1, p.2))).foldl nsAttrStep [],
          none, some ⟨none, b.InnerXML⟩⟩, ?_,
        lookup_after_roundtrip e hnd, rfl⟩
      simp only [Envelope.MarshalXML, hh, hb, hf, Body.marshalTokens,
        List.append_nil, List.nil_append, List.cons_append, List.append_assoc]
      simp only [xmlDecode, Envelope.UnmarshalXML]
      rw [unmarshalLoop_bodyToks]
      rfl
  | some h =>
      refine ⟨⟨(("xmlns:env", NamespaceEnvelope) ::
          e.Namespaces.map (fun p => ("xmlns:" ++ p.1, p.2))).foldl nsAttrStep [],
          some ⟨none⟩, some ⟨none, b.InnerXML⟩⟩, ?_,
        lookup_after_roundtrip e hnd, rfl⟩
      have hbalSEC : BalancedToks
          (match h.Security with | some s => marshalSecurity s | none => []) := by
        cases h.Security with
        | none => exact .nil
        | some s => exact balanced_marshalSecurity s
      simp only [Envelope.MarshalXML, hh, hb, hf, Body.marshalTokens,
        Header.marshalTokens, List.append_nil, List.nil_append, List.cons_append,
        List.append_assoc]
      simp only [xmlDecode, Envelope.UnmarshalXML]
      simp only [unmarshalLoop]
      rw [if_pos (by decide)]
      rw [takeElement_close hbalSEC]
      dsimp only
      rw [unmarshalLoop_bodyToks]
      rfl

/-- Claim C5 counterexample: for the envelope with an empty namespace table
(and an empty fault-free body), decode of its encoding yields the table
[("env", envelope-namespace)], which is not equal to the original empty
table — the bindings are not reproduced exactly as the claim states. -/
theorem C5_counterexample :
    xmlDecode (Envelope.MarshalXML
        { Namespaces := [], Header := none,
          Body := some { Fault := none, InnerXML := [] } }) =
      .ok { Namespaces := [("env", NamespaceEnvelope)], Header := none,
            Body := some { Fault := none, InnerXML := [] } } ∧
    [("env", NamespaceEnvelope)] ≠ ([] : List (String × String)) := by
  constructor
  · simp +decide [Envelope.MarshalXML, Body.marshalTokens, xmlDecode,
      Envelope.UnmarshalXML, unmarshalLoop, takeElement, decodeBody, childLast,
      serializeToks, serializeTok, nsAttrStep, nsInsert, splitName, splitNameCore,
      lowerName, Except.map]
  · simp

/-- Claim C5 witness: the theorem applied to a concrete envelope with one
caller namespace binding and a nonempty payload. -/
theorem C5_witness :
    ∃ env2,
      xmlDecode (Envelope.MarshalXML
          { Namespaces := [("tds", "http://www.onvif.org/ver10/device/wsdl")],
            Header := none,
            Body := some { Fault := none, InnerXML := [60, 97, 47, 62] } }) = .ok env2 ∧
      (∀ q, env2.Namespaces.lookup q =
        (match [("tds", "http://www.onvif.org/ver10/device/wsdl")].lookup q with
         | some v => some v
         | none => if q == "env" then some NamespaceEnvelope else none)) ∧
      env2.Body = some { Fault := none, InnerXML := [60, 97, 47, 62] } :=
  C5_roundtrip
    { Namespaces := [("tds", "http://www.onvif.org/ver10/device/wsdl")],
      Header := none,
      Body := some { Fault := none, InnerXML := [60, 97, 47, 62] } }
    { Fault := none, InnerXML := [60, 97, 47, 62] } rfl rfl (by simp)

@[simp] theorem setAuthParams_AuthMode (c : Client) :
    (setAuthParams c).AuthMode = c.AuthMode := by
  unfold setAuthParams
  split <;> rfl

@[simp] theorem setAuthParams_Username (c : Client) :
    (setAuthParams c).Username = c.Username := by
  unfold setAuthParams
  split <;> rfl

@[simp] theorem setAuthParams_Password (c : Client) :
    (setAuthParams c).Password = c.Password := by
  unfold setAuthParams
  split <;> rfl

@[simp] theorem escalateDigest_AuthMode (c : Client) :
    (escalateDigest c).AuthMode = .digest := by
  unfold escalateDigest
  split <;> rfl

@[simp] theorem escalateDigest_digestInstalled (c : Client) :
    (escalateDigest c).digestInstalled = true := by
  unfold escalateDigest
  split <;> simp_all

theorem escalateDigest_installs (c : Client) :
    (escalateDigest c).installs = c.installs + (if c.digestInstalled then 0 else 1) := by
  unfold escalateDigest
  split <;> simp_all

theorem doCall_digest_spec (c : Client) (resps : Nat → HttpResponse) (k : Nat)
    (hm : c.AuthMode = .digest) :
    (doCall c resps k).requests = 1 ∧ (doCall c resps k).digestRetries = 0 ∧
    (doCall c resps k).wsRetries = 0 ∧ (doCall c resps k).client.AuthMode = .digest := by
  unfold doCall
  cases hrk : resps k with
  | postErr => simp [hm]
  | resp status body =>
      dsimp only
      by_cases h401 : status = 401
      · subst h401
        rw [dif_pos rfl, dif_neg (by simp [hm])]
        simp [hm]
      · rw [dif_neg h401]
        cases body with
        | none => simp [hm]
        | some env =>
            cases hf : envFault env with
            | none => simp [hm, hf]
            | some f =>
                by_cases hu : f.IsUnauthorizedError
                · simp only [hf, hu, if_true]
                  rw [dif_neg (by simp [hm])]
                  simp [hm]
                · simp [hf, hu, hm]

theorem doCall_ws_spec (c : Client) (resps : Nat → HttpResponse) (k : Nat)
    (hm : c.AuthMode = .wsSecurity) :
    (doCall c resps k).requests ≤ 2 ∧ (doCall c resps k).digestRetries ≤ 1 ∧
    (doCall c resps k).wsRetries = 0 ∧
    1 ≤ escRank (doCall c resps k).client.AuthMode := by
  unfold doCall
  cases hrk : resps k with
  | postErr => simp [hm, escRank]
  | resp status body =>
      dsimp only
      by_cases h401 : status = 401
      · subst h401
        by_cases hEsc : c.AuthMode ≠ AuthMode.digest ∧ c.Username ≠ "" ∧ c.Password ≠ ""
        · rw [dif_pos rfl, dif_pos hEsc]
          obtain ⟨hq1, hq2, hq3, hq4⟩ :=
            doCall_digest_spec (escalateDigest (setAuthParams c)) resps (k + 1) (by simp)
          simp [hq1, hq2, hq3, hq4, escRank]
        · rw [dif_pos rfl, dif_neg hEsc]
          simp [hm, escRank]
      · rw [dif_neg h401]
        cases body with
        | none => simp [hm, escRank]
        | some env =>
            cases hf : envFault env with
            | none => simp [hm, hf, escRank]
            | some f =>
                by_cases hu : f.IsUnauthorizedError
                · simp only [hf, hu, if_true]
                  rw [dif_neg (by simp [hm])]
                  simp [hm, escRank]
                · simp [hf, hu, hm, escRank]

theorem doCall_none_spec (c : Client) (resps : Nat → HttpResponse) (k : Nat)
    (hm : c.AuthMode = .none) :
    (doCall c resps k).requests ≤ 3 ∧ (doCall c resps k).digestRetries ≤ 1 ∧
    (doCall c resps k).wsRetries ≤ 1 := by
  unfold doCall
  cases hrk : resps k with
  | postErr => simp
  | resp status body =>
      dsimp only
      by_cases h401 : status = 401
      · subst h401
        by_cases hEsc : c.AuthMode ≠ AuthMode.digest ∧ c.Username ≠ "" ∧ c.Password ≠ ""
        · rw [dif_pos rfl, dif_pos hEsc]
          obtain ⟨hq1, hq2, hq3, hq4⟩ :=
            doCall_digest_spec (escalateDigest (setAuthParams c)) resps (k + 1) (by simp)
          simp [hq1, hq2, hq3]
        · rw [dif_pos rfl, dif_neg hEsc]
          simp
      · rw [dif_neg h401]
        cases body with
        | none => simp
        | some env =>
            cases hf : envFault env with
            | none => simp [hf]
            | some f =>
                by_cases hu : f.IsUnauthorizedError
                · simp only [hf, hu, if_true]
                  by_cases hWs : c.AuthMode = AuthMode.none ∧ c.Username ≠ "" ∧ c.Password ≠ ""
                  · rw [dif_pos hWs]
                    dsimp only
                    simp only [setAuthParams_Username, setAuthParams_Password]
                    obtain ⟨hq1, hq2, hq3, hq4⟩ :=
                      doCall_ws_spec
                        ⟨AuthMode.wsSecurity, c.Username, c.Password,
                          (setAuthParams c).digestInstalled, (setAuthParams c).installs⟩
                        resps (k + 1) rfl
                    exact ⟨by omega, by omega, by omega⟩
                  · rw [dif_neg hWs]
                    simp
                · simp [hf, hu]

/-- Claim C3: each of the two escalation paths (HTTP-401-to-Digest and
unauthorized-fault-to-WSSecurity) retransmits at most once per original
call, and one logical `Client.Do` call issues at most 3 HTTP requests.  The
self-invocation terminates: the model's recursion is well-founded by the
strictly decreasing mode measure `escFuel`, which is exactly the code's
state-transition argument. -/
theorem C3_do_bounded (c : Client) (resps : Nat → HttpResponse) (k : Nat) :
    (doCall c resps k).requests ≤ 3 ∧
    (doCall c resps k).digestRetries ≤ 1 ∧
    (doCall c resps k).wsRetries ≤ 1 := by
  cases hm : c.AuthMode with
  | none => exact doCall_none_spec c resps k hm
  | digest =>
      obtain ⟨h1, h2, h3, _⟩ := doCall_digest_spec c resps k hm
      omega
  | wsSecurity =>
      obtain ⟨h1, h2, h3, _⟩ := doCall_ws_spec c resps k hm
      omega

theorem setAuthParams_eq_of_ne_digest (c : Client) (h : c.AuthMode ≠ .digest) :
    setAuthParams c = c := by
  unfold setAuthParams
  rw [if_neg (by simp [h])]

/-- Claim C4 (corrected): during any `Client.Do` call the AuthMode only
moves forward along the order None, then WSSecurity, then Digest — once
upgraded it never returns to an earlier mode in that order.  The order the
claim states (None, Digest, WSSecurity) fails: a 401 received while in
WSSecurity mode moves the mode to Digest by design (see the `Client` doc
comment in the source), a regression in the claim's order. -/
theorem C4_authMode_monotone (c : Client) (resps : Nat → HttpResponse) (k : Nat) :
    escRank c.AuthMode ≤ escRank (doCall c resps k).client.AuthMode := by
  cases hm : c.AuthMode with
  | none => simp [escRank]
  | digest =>
      have h := (doCall_digest_spec c resps k hm).2.2.2
      simp [h, escRank]
  | wsSecurity =>
      have h := (doCall_ws_spec c resps k hm).2.2.2
      simpa [escRank] using h

/-- Claim C4 counterexample: a client in WSSecurity mode with credentials
that receives an HTTP 401 ends the call in Digest mode; in the order the
claim asserts (None to Digest to WSSecurity) that is a move to an earlier
(lower) mode, so AuthMode is not monotone along the claim's order. -/
theorem C4_counterexample :
    (doCall ⟨AuthMode.wsSecurity, "u", "p", false, 0⟩
        (fun _ => HttpResponse.resp 401 none) 0).client.AuthMode = AuthMode.digest ∧
    claimRank AuthMode.digest < claimRank AuthMode.wsSecurity := by
  constructor
  · simp +decide [doCall, setAuthParams, escalateDigest]
  · decide

/-- Claim C7: on an HTTP 401 response, if the mode is not Digest and both
credentials are non-empty, `Client.Do` sets the mode to Digest, installs
the digest transport wrapper only if one is not already installed (seeded
by replaying the 401's challenge — the seeding has no further observable
effect in this model), and retransmits the identical request exactly once:
the call issues exactly 2 requests, the 401-path fires exactly once, and
the outcome is that of the escalated retry.  If the mode is already Digest
or credentials are missing, an UnauthorizedError is returned immediately
with a single request and no retransmission. -/
theorem C7_http401 (c : Client) (resps : Nat → HttpResponse) (k : Nat)
    (body : Option Envelope) (hresp : resps k = HttpResponse.resp 401 body) :
    ((c.AuthMode ≠ AuthMode.digest ∧ c.Username ≠ "" ∧ c.Password ≠ "") →
      doCall c resps k =
        ⟨(doCall (escalateDigest c) resps (k + 1)).client, 2, 1, 0,
          (doCall (escalateDigest c) resps (k + 1)).result⟩ ∧
      (escalateDigest c).AuthMode = AuthMode.digest ∧
      (escalateDigest c).digestInstalled = true ∧
      (escalateDigest c).installs = c.installs + (if c.digestInstalled then 0 else 1)) ∧
    (¬(c.AuthMode ≠ AuthMode.digest ∧ c.Username ≠ "" ∧ c.Password ≠ "") →
      doCall c resps k =
        ⟨setAuthParams c, 1, 0, 0, .error (.unauthorizedStatus 401)⟩) := by
  constructor
  · intro hEsc
    refine ⟨?_, by simp, by simp, escalateDigest_installs c⟩
    conv_lhs => unfold doCall
    rw [hresp]
    dsimp only
    rw [dif_pos rfl, dif_pos hEsc, setAuthParams_eq_of_ne_digest c hEsc.1]
    obtain ⟨hq1, hq2, hq3, hq4⟩ :=
      doCall_digest_spec (escalateDigest c) resps (k + 1) (by simp)
    rw [hq1, hq2, hq3]
  · intro hn
    unfold doCall
    rw [hresp]
    dsimp only
    rw [dif_pos rfl, dif_neg hn]

/-- Claim C7 witness: the theorem applied to a concrete client in None mode
with credentials, against a transport that always answers 401: the call
escalates to Digest, installs the wrapper once, retries once, and the retry
fails with an UnauthorizedError. -/
theorem C7_witness :
    doCall ⟨AuthMode.none, "u", "p", false, 0⟩
        (fun _ => HttpResponse.resp 401 none) 0 =
      ⟨⟨AuthMode.digest, "u", "p", true, 1⟩, 2, 1, 0,
        .error (.unauthorizedStatus 401)⟩ := by
  have h := ((C7_http401 ⟨AuthMode.none, "u", "p", false, 0⟩
      (fun _ => HttpResponse.resp 401 none) 0 none rfl).1 (by simp)).1
  rw [h]
  simp +decide [doCall, setAuthParams, escalateDigest]

/-- Claim C8: when a non-401 response decodes to an envelope whose Body
carries a Fault: if the classifier reports unauthorized and the mode is
None with both credentials non-empty, the mode is set to WSSecurity and the
identical request is retransmitted exactly once (the WSSecurity path fires
exactly once — the retry itself never fires it again); if the classifier
reports unauthorized but that condition fails, an UnauthorizedError
wrapping the fault is returned with one request and no retransmission; if
the fault is not classified unauthorized, the fault itself is the error,
with no retransmission. -/
theorem C8_fault_handling (c : Client) (resps : Nat → HttpResponse) (k : Nat)
    (st : Nat) (env : Envelope) (f : Fault)
    (hresp : resps k = HttpResponse.resp st (some env))
    (hst : st ≠ 401) (hf : envFault env = some f) :
    (f.IsUnauthorizedError = true →
      ((c.AuthMode = AuthMode.none ∧ c.Username ≠ "" ∧ c.Password ≠ "") →
        (doCall c resps k =
          (let r := doCall ⟨AuthMode.wsSecurity, c.Username, c.Password,
              c.digestInstalled, c.installs⟩ resps (k + 1)
           ⟨r.client, r.requests + 1, r.digestRetries, r.wsRetries + 1, r.result⟩) ∧
         (doCall ⟨AuthMode.wsSecurity, c.Username, c.Password,
             c.digestInstalled, c.installs⟩ resps (k + 1)).wsRetries = 0)) ∧
      (¬(c.AuthMode = AuthMode.none ∧ c.Username ≠ "" ∧ c.Password ≠ "") →
        doCall c resps k =
          ⟨setAuthParams c, 1, 0, 0, .error (.unauthorizedFault f)⟩)) ∧
    (f.IsUnauthorizedError = false →
      doCall c resps k = ⟨setAuthParams c, 1, 0, 0, .error (.faultError f)⟩) := by
  refine ⟨fun hu => ⟨fun hWs => ⟨?_, ?_⟩, fun hn => ?_⟩, fun hu => ?_⟩
  · conv_lhs => unfold doCall
    rw [hresp]
    dsimp only
    rw [dif_neg hst]
    rw [hf]
    dsimp only
    rw [if_pos hu, dif_pos hWs,
      setAuthParams_eq_of_ne_digest c (by simp [hWs.1])]
  · exact (doCall_ws_spec _ resps (k + 1) rfl).2.2.1
  · unfold doCall
    rw [hresp]
    dsimp only
    rw [dif_neg hst]
    rw [hf]
    dsimp only
    rw [if_pos hu, dif_neg hn]
  · unfold doCall
    rw [hresp]
    dsimp only
    rw [dif_neg hst]
    rw [hf]
    dsimp only
    rw [if_neg (by simp [hu])]

/-- Claim C8 witness: the theorem applied to a concrete client in None mode
with credentials, against a transport that always answers 200 with an
unauthorized fault (Code "Sender", SubCode "NotAuthorized", empty namespace
table): the call escalates to WSSecurity, retries once, and the retry fails
with an UnauthorizedError wrapping the fault. -/
theorem C8_witness :
    doCall ⟨AuthMode.none, "u", "p", false, 0⟩
        (fun _ => HttpResponse.resp 200
          (some ⟨[], none, some ⟨some ⟨[], "Sender", "NotAuthorized", "", "", "", []⟩, []⟩⟩)) 0 =
      ⟨⟨AuthMode.wsSecurity, "u", "p", false, 0⟩, 2, 0, 1,
        .error (.unauthorizedFault ⟨[], "Sender", "NotAuthorized", "", "", "", []⟩)⟩ := by
  have h := (((C8_fault_handling ⟨AuthMode.none, "u", "p", false, 0⟩
      (fun _ => HttpResponse.resp 200
        (some ⟨[], none, some ⟨some ⟨[], "Sender", "NotAuthorized", "", "", "", []⟩, []⟩⟩)) 0
      200 ⟨[], none, some ⟨some ⟨[], "Sender", "NotAuthorized", "", "", "", []⟩, []⟩⟩
      ⟨[], "Sender", "NotAuthorized", "", "", "", []⟩
      rfl (by decide) rfl).1 (by decide)).1 (by simp)).1
  rw [h]
  simp +decide [doCall, setAuthParams, envFault, Fault.IsUnauthorizedError, pfxStep]

theorem b64Index_b64Char : ∀ i, i < 64 → b64Index (b64Char i) = some i := by decide

theorem b64Char_ne_pad : ∀ i, i < 64 → ¬ b64Char i = '=' := by decide

theorem b64_roundtrip : ∀ (l : List Nat), (∀ b ∈ l, b < 256) →
    b64DecodeCore (b64EncodeCore l) = some l := by
  intro l
  induction l using b64EncodeCore.induct with
  | case1 =>
      intro h
      rfl
  | case2 x =>
      intro h
      have hx : x < 256 := h x (by simp)
      simp only [b64EncodeCore]
      simp only [b64DecodeCore]
      rw [if_pos (by simp)]
      rw [b64Index_b64Char _ (by omega), b64Index_b64Char _ (by omega)]
      simp only [Option.some.injEq, List.cons.injEq, and_true]
      omega
  | case3 x y =>
      intro h
      have hx : x < 256 := h x (by simp)
      have hy : y < 256 := h y (by simp)
      simp only [b64EncodeCore]
      simp only [b64DecodeCore]
      rw [if_neg (fun hc => b64Char_ne_pad _ (by omega) hc.1)]
      rw [if_pos (by simp)]
      rw [b64Index_b64Char _ (by omega), b64Index_b64Char _ (by omega),
        b64Index_b64Char _ (by omega)]
      simp only [Option.some.injEq, List.cons.injEq, and_true]
      constructor
      · omega
      · omega
  | case4 x y z rest ih =>
      intro h
      have hx : x < 256 := h x (by simp)
      have hy : y < 256 := h y (by simp)
      have hz : z < 256 := h z (by simp)
      have hrest : ∀ b ∈ rest, b < 256 := fun b hb => h b (by simp [hb])
      simp only [b64EncodeCore]
      simp only [b64DecodeCore]
      rw [if_neg (fun hc => b64Char_ne_pad _ (by omega) hc.1)]
      rw [if_neg (fun hc => b64Char_ne_pad _ (by omega) hc.1)]
      rw [b64Index_b64Char _ (by omega), b64Index_b64Char _ (by omega),
        b64Index_b64Char _ (by omega), b64Index_b64Char _ (by omega), ih hrest]
      simp only [Option.some.injEq, List.cons.injEq]
      refine ⟨by omega, by omega, by omega, trivial⟩

/-- Claim C6: `NewSecurity` computes the token's Password field as
base64(SHA-1(nonce bytes ‖ timestamp bytes ‖ password bytes)) in a single
hash pass with exactly that concatenation order, the nonce being 16 bytes
(the timestamp input stands for the captured UTC time formatted to whole
seconds); at the pinned inputs — nonce = 16 zero bytes, timestamp
"2024-01-01T00:00:00", password "12345" — the digest is the single
determined base64 value "NLLLgGQjnx/uchsQ67SpbP2lBhs=". -/
theorem C6_digest_formula :
    (∀ (rb : Nat → Nat) (created username password : String),
      NewSecurity rb created username password =
        ⟨some ⟨username,
          some ⟨typePassword, base64Encode (sha1
            ((List.range 16).map (fun i => rb i % 256) ++ strBytes created ++
              strBytes password))⟩,
          some ⟨typeNonce, base64Encode ((List.range 16).map (fun i => rb i % 256))⟩,
          created⟩⟩ ∧
      ((List.range 16).map (fun i => rb i % 256)).length = 16) ∧
    base64Encode (sha1 (List.replicate 16 0 ++ strBytes "2024-01-01T00:00:00" ++
      strBytes "12345")) = "NLLLgGQjnx/uchsQ67SpbP2lBhs=" ∧
    (NewSecurity (fun _ => 0) "2024-01-01T00:00:00" "admin" "12345").UsernameToken =
      some ⟨"admin", some ⟨typePassword, "NLLLgGQjnx/uchsQ67SpbP2lBhs="⟩,
        some ⟨typeNonce, "AAAAAAAAAAAAAAAAAAAAAA=="⟩, "2024-01-01T00:00:00"⟩ := by
  refine ⟨fun rb created username password => ⟨rfl, by simp⟩, by decide, by decide⟩

/-- Claim C10: every Security token returned by `NewSecurity` is
self-consistent: base64-decoding its Nonce field yields 16 bytes n such
that base64(SHA-1(n ‖ Created bytes ‖ password bytes)) equals the token's
Password field. -/
theorem C10_token_self_consistent (rb : Nat → Nat)
    (created username password : String) :
    ∃ t pwd non,
      (NewSecurity rb created username password).UsernameToken = some t ∧
      t.Password = some pwd ∧ t.Nonce = some non ∧
      ∃ nbytes, base64Decode non.Nonce = some nbytes ∧ nbytes.length = 16 ∧
        pwd.Password =
          base64Encode (sha1 (nbytes ++ strBytes t.Created ++ strBytes password)) := by
  refine ⟨_, _, _, rfl, rfl, rfl,
    (List.range 16).map (fun i => rb i % 256), ?_, by simp, rfl⟩
  show b64DecodeCore (b64EncodeCore ((List.range 16).map (fun i => rb i % 256))) = _
  refine b64_roundtrip _ ?_
  intro b hb
  simp only [List.mem_map, List.mem_range] at hb
  obtain ⟨i, _, hi⟩ := hb
  omega
